import Mathlib

/-!
Verification of the Hack assembler (`HackAssembler.cpp`).

The program is embedded shallowly: each C++ helper becomes a Lean
function over `List Char` / `String`, the three `unordered_map` tables
become association lists whose lookup returns `""` on a missing key
(mirroring `operator[]`, which default-constructs the mapped value),
and the three passes of `main` become recursive functions over the list
of raw source lines.
-/

namespace HackAsm

/-- Instruction-kind codes, mirroring the `#define`s in the source
(`A_INSTRUCTION 1`, `C_INSTRUCTION 2`, `L_INSTRUCTION 3`). -/
def A_INSTRUCTION : Nat := 1
def C_INSTRUCTION : Nat := 2
def L_INSTRUCTION : Nat := 3

/-- `void trim(string &s)`: the loop repeatedly finds the next `' '`
character and erases it, so its net effect is to delete every space
character (and only the space character) from the string. -/
def trim (l : List Char) : List Char :=
  l.filter (fun c => !(c == ' '))

/-- Two consecutive `'/'` characters somewhere in the list: this is
`line.find("//") != -1` from the three pass loops in `main`. -/
def hasDS : List Char → Bool
  | [] => false
  | c :: rest => (c == '/' && rest.head? == some '/') || hasDS rest

/-- Index of the first occurrence of `c`, as used via `string::find`;
call sites guard with a containment check before using the index. -/
def findIdx (c : Char) : List Char → Nat
  | [] => 0
  | d :: rest => if d == c then 0 else findIdx c rest + 1

/-- `Parser::instructionType` on the trimmed line. -/
def instructionType (l : List Char) : Nat :=
  if l.contains '@' then A_INSTRUCTION
  else if l.contains '(' && l.contains ')' then L_INSTRUCTION
  else C_INSTRUCTION

/-- `Parser::symbol`: text after `@`, or `substr(find('(') + 1, find(')') - 1)`. -/
def symbolOf (l : List Char) : String :=
  if l.contains '@' then String.mk (l.drop (findIdx '@' l + 1))
  else String.mk ((l.drop (findIdx '(' l + 1)).take (findIdx ')' l - 1))

/-- `Parser::dest`: text before `=`, or `"null"`. -/
def destOf (l : List Char) : String :=
  if l.contains '=' then String.mk (l.take (findIdx '=' l)) else "null"

/-- `Parser::comp`: the middle field, between `=` (if any) and `;` (if any). -/
def compOf (l : List Char) : String :=
  if !(l.contains '=') then
    if !(l.contains ';') then String.mk l
    else String.mk (l.take (findIdx ';' l))
  else
    if !(l.contains ';') then String.mk (l.drop (findIdx '=' l + 1))
    else String.mk ((l.drop (findIdx '=' l + 1)).take
      (findIdx ';' l - findIdx '=' l - 1))

/-- `Parser::jump`: text after `;`, or `"null"`. -/
def jumpOf (l : List Char) : String :=
  if l.contains ';' then String.mk (l.drop (findIdx ';' l + 1)) else "null"

/-- The `destMap` entries from `Code::Code`. -/
def destMap : List (String × String) :=
  [("null", "000"), ("M", "001"), ("D", "010"), ("DM", "011"), ("MD", "011"),
   ("A", "100"), ("AM", "101"), ("AD", "110"), ("ADM", "111")]

/-- The `compMap` entries from `Code::Code`. -/
def compMap : List (String × String) :=
  [("0", "101010"), ("1", "111111"), ("-1", "111010"), ("D", "001100"),
   ("A", "110000"), ("M", "110000"), ("!D", "001101"), ("!A", "110001"),
   ("!M", "110001"), ("-D", "001111"), ("-A", "110011"), ("-M", "110011"),
   ("D+1", "011111"), ("A+1", "110111"), ("M+1", "110111"), ("D-1", "001110"),
   ("A-1", "110010"), ("M-1", "110010"), ("D+A", "000010"), ("D+M", "000010"),
   ("D-A", "010011"), ("D-M", "010011"), ("A-D", "000111"), ("M-D", "000111"),
   ("D&A", "000000"), ("D&M", "000000"), ("D|A", "010101"), ("D|M", "010101")]

/-- The `jumpMap` entries from `Code::Code`. -/
def jumpMap : List (String × String) :=
  [("null", "000"), ("JGT", "001"), ("JEQ", "010"), ("JGE", "011"),
   ("JLT", "100"), ("JNE", "101"), ("JLE", "110"), ("JMP", "111")]

/-- `unordered_map<string,string>::operator[]` as used by `Code::dest`
etc.: the value for the key, or the default-constructed `""` when the
key is absent. -/
def lookupStr : List (String × String) → String → String
  | [], _ => ""
  | (k, v) :: rest, s => if k = s then v else lookupStr rest s

/-- `Code::dest`. -/
def codeDest (d : String) : String := lookupStr destMap d

/-- `Code::comp`: the leading source-select bit comes from scanning the
mnemonic for `'M'` (`c.find('M') == -1`), the remaining six bits from
the table. -/
def codeComp (c : String) : String :=
  (if c.data.contains 'M' then "1" else "0") ++ lookupStr compMap c

/-- `Code::jump`. -/
def codeJump (j : String) : String := lookupStr jumpMap j

/-- `bool AllisNum(string)`: every character is a decimal digit
(code points 48..57). -/
def AllisNum (s : String) : Bool :=
  s.data.all (fun c => 48 ≤ c.toNat && c.toNat ≤ 57)

/-- The accumulation loop of `int stonum(string)`: one digit at a time,
returning 0 as soon as the accumulator exceeds 32767.  The C++ `int`
arithmetic coincides with `Nat` arithmetic here because the only call
site guards with `AllisNum`, so every character is a decimal digit. -/
def stonumAux : List Char → Nat → Nat
  | [], num => num
  | c :: rest, num =>
    let num2 := num * 10 + (c.toNat - 48)
    if 32767 < num2 then 0 else stonumAux rest num2

/-- `int stonum(string)`: 0 for strings longer than 5 characters,
otherwise the digit loop with its overflow check. -/
def stonum (s : String) : Nat :=
  if 5 < s.data.length then 0 else stonumAux s.data 0

/-- The symbol table: `unordered_map<string,int>`, modelled as an
association list where `addEntry` prepends and lookup takes the first
match (later writes shadow earlier ones, as map assignment does). -/
abbrev SymTab := List (String × Nat)

/-- First-match lookup (`symbolMap.find`). -/
def lookupTab : SymTab → String → Option Nat
  | [], _ => none
  | (k, v) :: rest, s => if k = s then some v else lookupTab rest s

/-- `SymbolTable::contains`. -/
def containsTab (t : SymTab) (s : String) : Bool := (lookupTab t s).isSome

/-- `SymbolTable::getAddress`: `operator[]` default-constructs `0` for
an absent key. -/
def getAddress (t : SymTab) (s : String) : Nat := (lookupTab t s).getD 0

/-- `SymbolTable::addEntry`. -/
def addEntry (t : SymTab) (s : String) (a : Nat) : SymTab := (s, a) :: t

/-- The 23 predefined entries of `SymbolTable::SymbolTable`. -/
def initialTable : SymTab :=
  [("SP", 0), ("LCL", 1), ("ARG", 2), ("THIS", 3), ("THAT", 4),
   ("R0", 0), ("R1", 1), ("R2", 2), ("R3", 3), ("R4", 4), ("R5", 5),
   ("R6", 6), ("R7", 7), ("R8", 8), ("R9", 9), ("R10", 10), ("R11", 11),
   ("R12", 12), ("R13", 13), ("R14", 14), ("R15", 15),
   ("SCREEN", 16384), ("KBD", 24576)]

/-- The skip test shared by all three pass loops:
`parser->line.empty() || parser->line.find("//") != -1`, on the line
already trimmed by `Parser::advance`. -/
def skipLine (raw : List Char) : Bool :=
  (trim raw).isEmpty || hasDS (trim raw)

/-- Pass 1 of `main` (label resolution): `address` starts at 0; a label
line inserts its symbol at the current address if absent; every other
surviving line advances the address. -/
def pass1 : List (List Char) → Nat → SymTab → SymTab
  | [], _, t => t
  | raw :: rest, addr, t =>
    if skipLine raw then pass1 rest addr t
    else
      let l := trim raw
      if instructionType l = L_INSTRUCTION then
        let s := symbolOf l
        pass1 rest addr (if containsTab t s then t else addEntry t s addr)
      else pass1 rest (addr + 1) t

/-- Pass 2 of `main` (variable resolution), returning the final table
and the final variable counter; `address` starts at 16. -/
def pass2core : List (List Char) → Nat → SymTab → SymTab × Nat
  | [], a, t => (t, a)
  | raw :: rest, a, t =>
    if skipLine raw then pass2core rest a t
    else
      let l := trim raw
      if instructionType l = A_INSTRUCTION then
        let s := symbolOf l
        if containsTab t s then pass2core rest a t
        else if AllisNum s then pass2core rest a (addEntry t s (stonum s))
        else pass2core rest (a + 1) (addEntry t s a)
      else pass2core rest a t

/-- One bit character of the A-instruction loop:
`to_string((address >> i) & 1)`. -/
def bitChar (a i : Nat) : Char :=
  if (a >>> i) &&& 1 = 1 then '1' else '0'

/-- The A-instruction emission loop: for `i = 0 .. k-1`, prepend bit
`i`, leaving the most significant of the `k` bits first. -/
def encBits (a k : Nat) : List Char :=
  (List.range k).foldl (fun acc i => bitChar a i :: acc) []

/-- The full emitted A-instruction line: leading `'0'` then 15 bits. -/
def encodeAddress (a : Nat) : String :=
  String.mk ('0' :: encBits a 15)

/-- Pass 3 of `main` (emission): one line for each surviving A- or
C-instruction, nothing for labels (their `binaryCode` stays empty). -/
def pass3 : List (List Char) → SymTab → List String
  | [], _ => []
  | raw :: rest, t =>
    if skipLine raw then pass3 rest t
    else
      let l := trim raw
      if instructionType l = A_INSTRUCTION then
        encodeAddress (getAddress t (symbolOf l)) :: pass3 rest t
      else if instructionType l = C_INSTRUCTION then
        ("111" ++ codeComp (compOf l) ++ codeDest (destOf l)
          ++ codeJump (jumpOf l)) :: pass3 rest t
      else pass3 rest t

/-- Reinterpret characters 1..15 of an emitted line as unsigned binary,
most significant bit first (the spec's `decode`). -/
def decodeAux (l : List Char) (n : Nat) : Nat :=
  l.foldl (fun m c => 2 * m + (if c = '1' then 1 else 0)) n

/-- `decode` of the spec's round-trip property. -/
def decode (s : String) : Nat := decodeAux (s.data.drop 1) 0

/-- Mathematical decimal value of a digit string (spec side of the
literal-overflow claim). -/
def decValAux (l : List Char) (n : Nat) : Nat :=
  l.foldl (fun m c => m * 10 + (c.toNat - 48)) n

/-- Decimal value of a string of digits. -/
def decVal (s : String) : Nat := decValAux s.data 0

/-- A line that survives skipping and advances the pass-1 program
counter (an address or computation instruction). -/
def isInstrLine (raw : List Char) : Bool :=
  !(skipLine raw) && !(instructionType (trim raw) == L_INSTRUCTION)

/-- Number of address/computation instructions in a line list. -/
def countInstr (lines : List (List Char)) : Nat :=
  (lines.filter isInstrLine).length

/-- A surviving label line declaring symbol `s`. -/
def isLabelFor (s : String) (raw : List Char) : Bool :=
  !(skipLine raw) && (instructionType (trim raw) == L_INSTRUCTION)
    && (symbolOf (trim raw) == s)

/-- A surviving address-instruction line whose symbol is `s`. -/
def isARefFor (s : String) (raw : List Char) : Bool :=
  !(skipLine raw) && (instructionType (trim raw) == A_INSTRUCTION)
    && (symbolOf (trim raw) == s)

end HackAsm

namespace HackAsm

lemma decValAux_le (cs : List Char) : ∀ n : Nat, n ≤ decValAux cs n := by
  induction cs with
  | nil => intro n; exact Nat.le_refl n
  | cons c cs ih =>
    intro n
    have h := ih (n * 10 + (c.toNat - 48))
    have hn : n ≤ n * 10 + (c.toNat - 48) := by omega
    exact hn.trans h

lemma stonumAux_eq (cs : List Char) :
    ∀ n : Nat, n ≤ 32767 →
      stonumAux cs n = if 32767 < decValAux cs n then 0 else decValAux cs n := by
  induction cs with
  | nil =>
    intro n hn
    show n = if 32767 < decValAux [] n then 0 else decValAux [] n
    show n = if 32767 < n then 0 else n
    rw [if_neg (by omega)]
  | cons c cs ih =>
    intro n hn
    show (if 32767 < n * 10 + (c.toNat - 48) then 0
          else stonumAux cs (n * 10 + (c.toNat - 48)))
        = if 32767 < decValAux cs (n * 10 + (c.toNat - 48)) then 0
          else decValAux cs (n * 10 + (c.toNat - 48))
    by_cases h : 32767 < n * 10 + (c.toNat - 48)
    · have hle := decValAux_le cs (n * 10 + (c.toNat - 48))
      rw [if_pos h, if_pos (by omega)]
    · rw [if_neg h, ih _ (by omega)]

end HackAsm

open HackAsm

/-- C7: for an all-digit address symbol `s`, `stonum` yields 0 when `s`
has more than 5 characters or its decimal value exceeds 32767, and the
decimal value of `s` otherwise; the result is always at most 32767. -/
theorem stonum_clamp (s : String) (_hdigits : AllisNum s = true) :
    (stonum s = if 5 < s.data.length ∨ 32767 < decVal s then 0 else decVal s)
    ∧ stonum s ≤ 32767 := by
  unfold stonum decVal
  by_cases hl : 5 < s.data.length
  · rw [if_pos hl, if_pos (Or.inl hl)]
    exact ⟨rfl, by omega⟩
  · rw [if_neg hl, stonumAux_eq s.data 0 (by omega)]
    by_cases hv : 32767 < decValAux s.data 0
    · rw [if_pos hv, if_pos (Or.inr hv)]
      exact ⟨rfl, by omega⟩
    · rw [if_neg hv, if_neg (by tauto)]
      exact ⟨rfl, by omega⟩

/-- Witness for C7 at the concrete literal `"99999"` (6 digits would be
length > 5; this one is 5 digits but exceeds 32767, so it clamps to 0). -/
theorem stonum_clamp_witness :
    AllisNum "99999" = true ∧ stonum "99999" = 0 ∧ stonum "99999" ≤ 32767 :=
  ⟨by decide, ((stonum_clamp "99999" (by decide)).1).trans (by decide),
    (stonum_clamp "99999" (by decide)).2⟩

/-- C3 (code bug): the spec's tables require destination mnemonic
`"AMD"` to map to `"111"`, but `destMap` keys the three-register
destination only as `"ADM"`; looking up `"AMD"` default-constructs and
returns the empty string.  Every other mnemonic listed in the spec's
three tables does match: the jump table, the destination table apart
from `"AMD"`, and the register-form computation table. -/
theorem destMap_AMD_missing :
    codeDest "AMD" = "" ∧ codeDest "AMD" ≠ "111" ∧ codeDest "ADM" = "111"
    ∧ ([("null", "000"), ("M", "001"), ("D", "010"), ("MD", "011"),
        ("A", "100"), ("AM", "101"), ("AD", "110")].all
        (fun p => codeDest p.1 == p.2) = true)
    ∧ ([("null", "000"), ("JGT", "001"), ("JEQ", "010"), ("JGE", "011"),
        ("JLT", "100"), ("JNE", "101"), ("JLE", "110"), ("JMP", "111")].all
        (fun p => codeJump p.1 == p.2) = true)
    ∧ ([("0", "101010"), ("1", "111111"), ("-1", "111010"), ("D", "001100"),
        ("A", "110000"), ("-D", "001111"), ("-A", "110011"), ("!D", "001101"),
        ("!A", "110001"), ("D+1", "011111"), ("A+1", "110111"),
        ("D-1", "001110"), ("A-1", "110010"), ("D+A", "000010"),
        ("D-A", "010011"), ("A-D", "000111"), ("D&A", "000000"),
        ("D|A", "010101")].all
        (fun p => lookupStr compMap p.1 == p.2) = true) := by
  refine ⟨by decide, by decide, by decide, by decide, by decide, by decide⟩

/-- C5: the source-select bit of `Code::comp` is the leading character
and comes from scanning the mnemonic for `'M'` (for every string, by
construction); over the valid computation mnemonics (the keys of
`compMap`) it is `'1'` exactly when the mnemonic contains `'M'`; and
each memory-form mnemonic shares its 6-bit table code with its
register-form counterpart. -/
theorem comp_select_bit :
    (∀ c : String,
      codeComp c = (if c.data.contains 'M' then "1" else "0") ++ lookupStr compMap c)
    ∧ ((compMap.map Prod.fst).all
        (fun c => ((codeComp c).data.head? == some '1') == c.data.contains 'M')
        = true)
    ∧ ([("M", "A"), ("!M", "!A"), ("-M", "-A"), ("M+1", "A+1"), ("M-1", "A-1"),
        ("D+M", "D+A"), ("D-M", "D-A"), ("M-D", "A-D"), ("D&M", "D&A"),
        ("D|M", "D|A")].all
        (fun p => lookupStr compMap p.1 == lookupStr compMap p.2) = true) :=
  ⟨fun _ => rfl, by decide, by decide⟩

/-- C6 (code bug): a computation instruction whose mnemonic is absent
from its table does not abort the run — `operator[]` returns `""`, so
the assembler emits a malformed (here 10-character) line and keeps
translating subsequent instructions. -/
theorem unknown_mnemonic_emitted :
    pass3 ["D=X".data, "@5".data]
        (pass2core ["D=X".data, "@5".data] 16
          (pass1 ["D=X".data, "@5".data] 0 initialTable)).1
      = ["1110010000", "0000000000000101"]
    ∧ ("1110010000" : String).length = 10
    ∧ lookupStr compMap "X" = "" := by
  refine ⟨by decide, by decide, by decide⟩

/-- C8 counterexample: the destination table is not order-insensitive —
`"AM"` maps to `"101"` but the reversed ordering `"MA"` is not keyed at
all and looks up to the empty string. -/
theorem dest_MA_not_101 :
    codeDest "AM" = "101" ∧ codeDest "MA" = "" ∧ codeDest "MA" ≠ codeDest "AM" := by
  refine ⟨by decide, by decide, by decide⟩

/-- C8 amended: only the D,M two-register destination is keyed under
both orderings (`"DM"` and `"MD"`, both `"011"`); the A,M and A,D pairs
are keyed only as `"AM"` and `"AD"`, and of the six orderings of the
three-register destination only `"ADM"` is keyed (to `"111"`); every
other ordering looks up to the empty string. -/
theorem dest_order_partial :
    codeDest "DM" = "011" ∧ codeDest "MD" = "011"
    ∧ codeDest "AM" = "101" ∧ codeDest "MA" = ""
    ∧ codeDest "AD" = "110" ∧ codeDest "DA" = ""
    ∧ codeDest "ADM" = "111" ∧ codeDest "AMD" = "" ∧ codeDest "MAD" = ""
    ∧ codeDest "MDA" = "" ∧ codeDest "DAM" = "" ∧ codeDest "DMA" = "" := by
  refine ⟨by decide, by decide, by decide, by decide, by decide, by decide,
    by decide, by decide, by decide, by decide, by decide, by decide⟩

/-- C9 (code bug): `trim` deletes only the space character, not tabs —
contradicting its own comment "removes all whitespace from the string".
A computation line written with tabs between its fields keeps the tabs,
so its fields miss every table and it encodes to a corrupt 7-character
line instead of the 16-character code of the space-free line. -/
theorem trim_space_only :
    trim "D\t=\tA".data = "D\t=\tA".data
    ∧ trim "D = A".data = "D=A".data
    ∧ pass3 ["D\t=\tA".data] initialTable = ["1110000"]
    ∧ pass3 ["D=A".data] initialTable = ["1110110000010000"] := by
  refine ⟨by decide, by decide, by decide, by decide⟩

namespace HackAsm

lemma hasDS_cons_of (c : Char) (t : List Char) (h : hasDS t = true) :
    hasDS (c :: t) = true := by
  simp [hasDS, h]

lemma hasDS_trim (l : List Char) (h : hasDS l = true) :
    hasDS (trim l) = true := by
  induction l with
  | nil => exact absurd h (by decide)
  | cons c rest ih =>
    have h2 : (c = '/' ∧ rest.head? = some '/') ∨ hasDS rest = true := by
      simpa [hasDS] using h
    rcases h2 with ⟨hc, hh⟩ | h2
    · cases rest with
      | nil => simp at hh
      | cons d rest2 =>
        have hd : d = '/' := by simpa using hh
        subst hc; subst hd
        simp [trim, List.filter, hasDS]
    · have := ih h2
      show hasDS (List.filter (fun c => !(c == ' ')) (c :: rest)) = true
      rw [List.filter_cons]
      by_cases hc : (!(c == ' ')) = true
      · rw [if_pos hc]
        exact hasDS_cons_of c _ this
      · rw [if_neg hc]
        exact this

lemma skipLine_of_hasDS (raw : List Char) (h : hasDS raw = true) :
    skipLine raw = true := by
  unfold skipLine
  rw [hasDS_trim raw h, Bool.or_true]

end HackAsm

/-- C10: a source line containing the substring `"//"` anywhere — even
after an instruction, as in `"D=A // note"` — is skipped whole by all
three passes: it neither changes the pass-1 counter or table, nor the
pass-2 state, nor produces any output line. -/
theorem comment_line_skipped (raw : List Char) (h : hasDS raw = true) :
    ∀ (rest : List (List Char)) (a : Nat) (t : SymTab),
      pass1 (raw :: rest) a t = pass1 rest a t
      ∧ pass2core (raw :: rest) a t = pass2core rest a t
      ∧ pass3 (raw :: rest) t = pass3 rest t := by
  intro rest a t
  have hs := skipLine_of_hasDS raw h
  refine ⟨?_, ?_, ?_⟩
  · show (if skipLine raw then pass1 rest a t else _) = pass1 rest a t
    rw [if_pos hs]
  · show (if skipLine raw then pass2core rest a t else _) = pass2core rest a t
    rw [if_pos hs]
  · show (if skipLine raw then pass3 rest t else _) = pass3 rest t
    rw [if_pos hs]

/-- Witness for C10 at the line `"D=A // note"`. -/
theorem comment_line_skipped_witness :
    hasDS "D=A // note".data = true
    ∧ pass1 ["D=A // note".data, "@5".data] 0 initialTable
        = pass1 ["@5".data] 0 initialTable
    ∧ pass2core ["D=A // note".data, "@5".data] 16 initialTable
        = pass2core ["@5".data] 16 initialTable
    ∧ pass3 ["D=A // note".data, "@5".data] initialTable
        = pass3 ["@5".data] initialTable :=
  ⟨by decide,
    (comment_line_skipped "D=A // note".data (by decide) ["@5".data] 0 initialTable).1,
    (comment_line_skipped "D=A // note".data (by decide) ["@5".data] 16 initialTable).2.1,
    (comment_line_skipped "D=A // note".data (by decide) ["@5".data] 0 initialTable).2.2⟩

namespace HackAsm

lemma encBits_succ (a k : Nat) :
    encBits a (k + 1) = bitChar a k :: encBits a k := by
  simp [encBits, List.range_succ]

lemma encBits_length (a k : Nat) : (encBits a k).length = k := by
  induction k with
  | zero => rfl
  | succ k ih => rw [encBits_succ, List.length_cons, ih]

lemma decodeAux_cons (c : Char) (l : List Char) (n : Nat) :
    decodeAux (c :: l) n = decodeAux l (2 * n + (if c = '1' then 1 else 0)) := rfl

lemma decodeAux_shift (l : List Char) :
    ∀ n : Nat, decodeAux l n = n * 2 ^ l.length + decodeAux l 0 := by
  induction l with
  | nil => intro n; simp [decodeAux]
  | cons c l ih =>
    intro n
    rw [decodeAux_cons, decodeAux_cons, ih (2 * n + _), ih (2 * 0 + _),
      List.length_cons, pow_succ]
    ring

lemma bitChar_val (a k : Nat) :
    (if bitChar a k = '1' then 1 else 0) = a / 2 ^ k % 2 := by
  unfold bitChar
  rw [Nat.shiftRight_eq_div_pow, Nat.and_one_is_mod]
  rcases Nat.mod_two_eq_zero_or_one (a / 2 ^ k) with h | h <;> rw [h] <;> decide

lemma decodeAux_encBits (a k : Nat) :
    decodeAux (encBits a k) 0 = a % 2 ^ k := by
  induction k with
  | zero => simp [encBits, decodeAux, Nat.mod_one]
  | succ k ih =>
    rw [encBits_succ, decodeAux_cons, decodeAux_shift, ih, encBits_length,
      Nat.mul_zero, Nat.zero_add, bitChar_val, pow_succ, Nat.mod_mul]
    ring

lemma encBits_mem (a k : Nat) :
    ∀ c ∈ encBits a k, c = '0' ∨ c = '1' := by
  induction k with
  | zero => intro c hc; exact absurd hc (by simp [encBits])
  | succ k ih =>
    intro c hc
    rw [encBits_succ] at hc
    rcases List.mem_cons.mp hc with h | h
    · subst h
      unfold bitChar
      by_cases hb : (a >>> k) &&& 1 = 1
      · rw [if_pos hb]; exact Or.inr rfl
      · rw [if_neg hb]; exact Or.inl rfl
    · exact ih c h

end HackAsm

/-- C4: for every address `a` in 0..32767 the emitted A-instruction
line is 16 characters of `'0'`/`'1'`, starts with `'0'`, and its
remaining 15 characters read as unsigned binary (most significant bit
first) recover `a`. -/
theorem encodeAddress_roundtrip (a : Nat) (h : a ≤ 32767) :
    decode (encodeAddress a) = a
    ∧ (encodeAddress a).data.length = 16
    ∧ (encodeAddress a).data.head? = some '0'
    ∧ ∀ c ∈ (encodeAddress a).data, c = '0' ∨ c = '1' := by
  refine ⟨?_, ?_, ?_, ?_⟩
  · show decodeAux (('0' :: encBits a 15).drop 1) 0 = a
    rw [List.drop_one, List.tail_cons, decodeAux_encBits]
    exact Nat.mod_eq_of_lt (by omega)
  · show ('0' :: encBits a 15).length = 16
    rw [List.length_cons, encBits_length]
  · rfl
  · intro c hc
    rcases List.mem_cons.mp hc with h0 | h0
    · exact Or.inl h0
    · exact encBits_mem a 15 c h0

/-- Witness for C4 at the concrete address 12345. -/
theorem encodeAddress_roundtrip_witness :
    (12345 ≤ 32767 ∧ decode (encodeAddress 12345) = 12345)
    ∧ encodeAddress 12345 = "0011000000111001" :=
  ⟨⟨by decide, (encodeAddress_roundtrip 12345 (by decide)).1⟩, by decide⟩

namespace HackAsm

lemma pass1_cons (raw : List Char) (rest : List (List Char)) (addr : Nat)
    (t : SymTab) :
    pass1 (raw :: rest) addr t =
      if skipLine raw then pass1 rest addr t
      else if instructionType (trim raw) = L_INSTRUCTION then
        pass1 rest addr
          (if containsTab t (symbolOf (trim raw)) then t
           else addEntry t (symbolOf (trim raw)) addr)
      else pass1 rest (addr + 1) t := rfl

lemma lookupTab_addEntry (t : SymTab) (s2 s : String) (a : Nat) :
    lookupTab (addEntry t s2 a) s = if s2 = s then some a else lookupTab t s := rfl

lemma pass1_preserves (lines : List (List Char)) :
    ∀ (addr : Nat) (t : SymTab) (s : String) (v : Nat),
      lookupTab t s = some v → lookupTab (pass1 lines addr t) s = some v := by
  induction lines with
  | nil => intro _ _ _ _ h; exact h
  | cons raw rest ih =>
    intro addr t s v h
    rw [pass1_cons]
    by_cases hs : skipLine raw = true
    · rw [if_pos hs]; exact ih addr t s v h
    · rw [if_neg hs]
      by_cases hL : instructionType (trim raw) = L_INSTRUCTION
      · rw [if_pos hL]
        by_cases hc : containsTab t (symbolOf (trim raw)) = true
        · rw [if_pos hc]; exact ih addr t s v h
        · rw [if_neg hc]
          apply ih
          rw [lookupTab_addEntry]
          have hne : symbolOf (trim raw) ≠ s := by
            intro he
            rw [he] at hc
            exact hc (by simp [containsTab, h])
          rw [if_neg hne]
          exact h
      · rw [if_neg hL]; exact ih (addr + 1) t s v h

lemma countInstr_cons (q : List Char) (ls : List (List Char)) :
    countInstr (q :: ls) = (if isInstrLine q = true then 1 else 0) + countInstr ls := by
  simp only [countInstr, List.filter_cons]
  split
  · rw [List.length_cons]; omega
  · omega

lemma pass1_label_aux (s : String) (raw : List Char) (post : List (List Char))
    (hlab : isLabelFor s raw = true) :
    ∀ (pre : List (List Char)), (∀ p ∈ pre, isLabelFor s p = false) →
      ∀ (addr : Nat) (t : SymTab), containsTab t s = false →
        lookupTab (pass1 (pre ++ raw :: post) addr t) s
          = some (addr + countInstr pre) := by
  have hl : (skipLine raw = false ∧ instructionType (trim raw) = L_INSTRUCTION)
      ∧ symbolOf (trim raw) = s := by
    simpa [isLabelFor, Bool.and_eq_true, Bool.not_eq_true'] using hlab
  intro pre
  induction pre with
  | nil =>
    intro _ addr t ht
    rw [List.nil_append, pass1_cons, if_neg (by simp [hl.1.1]), if_pos hl.1.2,
      hl.2, if_neg (by simp [ht])]
    have hz : countInstr ([] : List (List Char)) = 0 := rfl
    rw [hz, Nat.add_zero]
    exact pass1_preserves post addr _ s addr (by rw [lookupTab_addEntry, if_pos rfl])
  | cons p pre ih =>
    intro hpre addr t ht
    have hp : isLabelFor s p = false := hpre p (List.mem_cons_self p pre)
    have hrest : ∀ q ∈ pre, isLabelFor s q = false :=
      fun q hq => hpre q (List.mem_cons_of_mem p hq)
    rw [List.cons_append, pass1_cons]
    by_cases hs : skipLine p = true
    · rw [if_pos hs]
      have hni : isInstrLine p = false := by simp [isInstrLine, hs]
      rw [countInstr_cons, hni, if_neg Bool.false_ne_true, Nat.zero_add]
      exact ih hrest addr t ht
    · rw [if_neg hs]
      have hsf : skipLine p = false := by simpa using hs
      by_cases hL : instructionType (trim p) = L_INSTRUCTION
      · rw [if_pos hL]
        have hni : isInstrLine p = false := by simp [isInstrLine, hL]
        have hne : symbolOf (trim p) ≠ s := by
          intro he
          have hp2 := hp
          simp [isLabelFor, hsf, hL, he] at hp2
        rw [countInstr_cons, hni, if_neg Bool.false_ne_true, Nat.zero_add]
        by_cases hc : containsTab t (symbolOf (trim p)) = true
        · rw [if_pos hc]
          exact ih hrest addr t ht
        · rw [if_neg hc]
          have ht2 : containsTab (addEntry t (symbolOf (trim p)) addr) s = false := by
            simpa [containsTab, lookupTab_addEntry, if_neg hne] using ht
          exact ih hrest addr _ ht2
      · rw [if_neg hL]
        have hni : isInstrLine p = true := by simp [isInstrLine, hsf, hL]
        rw [countInstr_cons, hni, if_pos (Eq.refl true)]
        have h2 := ih hrest (addr + 1) t ht
        rw [h2]
        congr 1
        omega

end HackAsm

/-- C1: a label declared by line `raw`, not predefined and not declared
by any earlier line, resolves in the pass-1 symbol table to exactly the
number of address/computation instructions that precede its declaration
— and it keeps this address no matter what follows (`post` arbitrary,
including redeclarations). -/
theorem pass1_label_resolution (pre post : List (List Char)) (raw : List Char)
    (s : String)
    (hlab : isLabelFor s raw = true)
    (hpre : ∀ p ∈ pre, isLabelFor s p = false)
    (hinit : containsTab initialTable s = false) :
    lookupTab (pass1 (pre ++ raw :: post) 0 initialTable) s
      = some (countInstr pre) := by
  have h := pass1_label_aux s raw post hlab pre hpre 0 initialTable hinit
  simpa using h

/-- Witness for C1: `(LOOP)` after two instructions resolves to 2, even
though it is redeclared later. -/
theorem pass1_label_resolution_witness :
    (isLabelFor "LOOP" "(LOOP)".data = true
      ∧ (∀ p ∈ ["@2".data, "D=A".data], isLabelFor "LOOP" p = false)
      ∧ containsTab initialTable "LOOP" = false)
    ∧ lookupTab
        (pass1 (["@2".data, "D=A".data] ++ "(LOOP)".data
          :: ["@LOOP".data, "(LOOP)".data]) 0 initialTable) "LOOP"
      = some 2 :=
  ⟨⟨by decide, by decide, by decide⟩,
    (pass1_label_resolution ["@2".data, "D=A".data]
      ["@LOOP".data, "(LOOP)".data] "(LOOP)".data "LOOP"
      (by decide) (by decide) (by decide)).trans (by decide)⟩

namespace HackAsm

lemma pass2core_cons (raw : List Char) (rest : List (List Char)) (a : Nat)
    (t : SymTab) :
    pass2core (raw :: rest) a t =
      if skipLine raw then pass2core rest a t
      else if instructionType (trim raw) = A_INSTRUCTION then
        (if containsTab t (symbolOf (trim raw)) then pass2core rest a t
         else if AllisNum (symbolOf (trim raw)) then
           pass2core rest a
             (addEntry t (symbolOf (trim raw)) (stonum (symbolOf (trim raw))))
         else pass2core rest (a + 1) (addEntry t (symbolOf (trim raw)) a))
      else pass2core rest a t := rfl

lemma pass2_append (xs ys : List (List Char)) :
    ∀ (a : Nat) (t : SymTab),
      pass2core (xs ++ ys) a t
        = pass2core ys (pass2core xs a t).2 (pass2core xs a t).1 := by
  induction xs with
  | nil => intro a t; rfl
  | cons raw xs ih =>
    intro a t
    rw [List.cons_append, pass2core_cons, pass2core_cons]
    by_cases hs : skipLine raw = true
    · rw [if_pos hs, if_pos hs]; exact ih a t
    · rw [if_neg hs, if_neg hs]
      by_cases hA : instructionType (trim raw) = A_INSTRUCTION
      · rw [if_pos hA, if_pos hA]
        by_cases hc : containsTab t (symbolOf (trim raw)) = true
        · rw [if_pos hc, if_pos hc]; exact ih a t
        · rw [if_neg hc, if_neg hc]
          by_cases hn : AllisNum (symbolOf (trim raw)) = true
          · rw [if_pos hn, if_pos hn]; exact ih a _
          · rw [if_neg hn, if_neg hn]; exact ih (a + 1) _
      · rw [if_neg hA, if_neg hA]; exact ih a t

lemma pass2_preserves (lines : List (List Char)) :
    ∀ (a : Nat) (t : SymTab) (s : String) (v : Nat),
      lookupTab t s = some v → lookupTab (pass2core lines a t).1 s = some v := by
  induction lines with
  | nil => intro _ _ _ _ h; exact h
  | cons raw rest ih =>
    intro a t s v h
    rw [pass2core_cons]
    by_cases hs : skipLine raw = true
    · rw [if_pos hs]; exact ih a t s v h
    · rw [if_neg hs]
      by_cases hA : instructionType (trim raw) = A_INSTRUCTION
      · rw [if_pos hA]
        by_cases hc : containsTab t (symbolOf (trim raw)) = true
        · rw [if_pos hc]; exact ih a t s v h
        · rw [if_neg hc]
          have hne : symbolOf (trim raw) ≠ s := by
            intro he
            rw [he] at hc
            exact hc (by simp [containsTab, h])
          by_cases hn : AllisNum (symbolOf (trim raw)) = true
          · rw [if_pos hn]
            exact ih a _ s v (by rw [lookupTab_addEntry, if_neg hne]; exact h)
          · rw [if_neg hn]
            exact ih (a + 1) _ s v (by rw [lookupTab_addEntry, if_neg hne]; exact h)
      · rw [if_neg hA]; exact ih a t s v h

lemma pass2_contains_preserved (lines : List (List Char)) (a : Nat) (t : SymTab)
    (s : String) (h : containsTab t s = true) :
    containsTab (pass2core lines a t).1 s = true := by
  rcases Option.isSome_iff_exists.mp h with ⟨v, hv⟩
  simp [containsTab, pass2_preserves lines a t s v hv]

end HackAsm

/-- C2: an address-instruction symbol `s` that is not all-digit and is
absent from the symbol table when reached (after processing the prefix
`pre`) is bound to the current variable counter — 16 plus one per new
variable already allocated in `pre` — and keeps that binding for any
continuation `post`; the counter advances by exactly 1 past it; and a
later address instruction naming `s` again changes neither the table
nor the counter, so a reused symbol resolves to its first-assigned
address without advancing the counter. -/
theorem pass2_var_allocation (pre : List (List Char)) (raw : List Char)
    (post : List (List Char)) (a0 : Nat) (t0 : SymTab) (s : String)
    (href : isARefFor s raw = true)
    (hnum : AllisNum s = false)
    (hnew : containsTab (pass2core pre a0 t0).1 s = false) :
    lookupTab (pass2core (pre ++ raw :: post) a0 t0).1 s
      = some (pass2core pre a0 t0).2
    ∧ (pass2core (pre ++ [raw]) a0 t0).2 = (pass2core pre a0 t0).2 + 1
    ∧ (∀ (mid : List (List Char)) (raw2 : List Char), isARefFor s raw2 = true →
        pass2core ((pre ++ raw :: mid) ++ [raw2]) a0 t0
          = pass2core (pre ++ raw :: mid) a0 t0) := by
  have hr : (skipLine raw = false ∧ instructionType (trim raw) = A_INSTRUCTION)
      ∧ symbolOf (trim raw) = s := by
    simpa [isARefFor, Bool.and_eq_true, Bool.not_eq_true'] using href
  have hstep : ∀ (rest : List (List Char)),
      pass2core (raw :: rest) (pass2core pre a0 t0).2 (pass2core pre a0 t0).1
        = pass2core rest ((pass2core pre a0 t0).2 + 1)
            (addEntry (pass2core pre a0 t0).1 s (pass2core pre a0 t0).2) := by
    intro rest
    rw [pass2core_cons, if_neg (by simp [hr.1.1]), if_pos hr.1.2, hr.2,
      if_neg (by simp [hnew]), if_neg (by simp [hnum])]
  refine ⟨?_, ?_, ?_⟩
  · rw [pass2_append pre (raw :: post), hstep post]
    exact pass2_preserves post _ _ s _ (by rw [lookupTab_addEntry, if_pos rfl])
  · rw [pass2_append pre [raw], hstep []]
    rfl
  · intro mid raw2 h2
    have hr2 : (skipLine raw2 = false
        ∧ instructionType (trim raw2) = A_INSTRUCTION)
        ∧ symbolOf (trim raw2) = s := by
      simpa [isARefFor, Bool.and_eq_true, Bool.not_eq_true'] using h2
    have hcy : containsTab (pass2core (pre ++ raw :: mid) a0 t0).1 s = true := by
      rw [pass2_append pre (raw :: mid), hstep mid]
      exact pass2_contains_preserved mid _ _ s
        (by simp [containsTab, lookupTab_addEntry])
    rw [pass2_append (pre ++ raw :: mid) [raw2], pass2core_cons,
      if_neg (by simp [hr2.1.1]), if_pos hr2.1.2, hr2.2, if_pos hcy]
    rfl

/-- Witness for C2: with `@foo` first (allocated 16), the new symbol
`bar` of `@bar` is bound to 17, the counter moves to 18, and a second
`@bar` later changes nothing. -/
theorem pass2_var_allocation_witness :
    (isARefFor "bar" "@bar".data = true ∧ AllisNum "bar" = false
      ∧ containsTab (pass2core ["@foo".data] 16 initialTable).1 "bar" = false)
    ∧ lookupTab
        (pass2core (["@foo".data] ++ "@bar".data :: ["D=A".data]) 16
          initialTable).1 "bar" = some 17
    ∧ (pass2core (["@foo".data] ++ ["@bar".data]) 16 initialTable).2 = 18
    ∧ pass2core ((["@foo".data] ++ "@bar".data :: ["D=A".data]) ++ ["@bar".data])
        16 initialTable
      = pass2core (["@foo".data] ++ "@bar".data :: ["D=A".data]) 16 initialTable :=
  ⟨⟨by decide, by decide, by decide⟩,
    ((pass2_var_allocation ["@foo".data] "@bar".data ["D=A".data] 16 initialTable
      "bar" (by decide) (by decide) (by decide)).1).trans (by decide),
    ((pass2_var_allocation ["@foo".data] "@bar".data ["D=A".data] 16 initialTable
      "bar" (by decide) (by decide) (by decide)).2.1).trans (by decide),
    (pass2_var_allocation ["@foo".data] "@bar".data ["D=A".data] 16 initialTable
      "bar" (by decide) (by decide) (by decide)).2.2 ["D=A".data] "@bar".data
      (by decide)⟩
